import Mathlib

/-!
Shallow embedding of the SRA metadata preprocessing pipeline
(`src/preprocessing.py`): the archive walker `iter_sra`, the three XML
field extractors `parse_study_xml` / `parse_sample_xml` /
`parse_experiment_xml`, the aggregator `aggregate_results`, the record
formatter `format_study_data` and the driver `iterparse_sra`.

Python values that may be `None` are modelled as `Option String`;
`Counter` objects are insertion-ordered association lists from keys to
counts; Python `dict`s are insertion-ordered association lists; raised
exceptions are modelled with `Except String`.
-/

namespace SRA

/-- Python `str(x)` on a value that is either `None` or a string. -/
def pyStr : Option String → String
  | none => "None"
  | some s => s

/-- Python `x or d` for `x` a `None`-or-string value: `None` and the
empty string are falsy. -/
def pyOr (o : Option String) (d : String) : String :=
  match o with
  | none => d
  | some s => if s = "" then d else s

/-- Python truthiness of a `None`-or-string value (used by `if v.text`). -/
def pyTruthy : Option String → Bool
  | none => false
  | some s => s ≠ ""

/-- Key test for association-list entries (dict and `Counter` lookups
compare keys with `==`). -/
def fstIs {α : Type} (k : Option String) (p : Option String × α) : Bool :=
  p.1 = k

/-- Key test for string-keyed association-list entries. -/
def fstIsS {α : Type} (k : String) (p : String × α) : Bool :=
  p.1 = k

/-- Split a list of characters at a separator character. -/
def splitOnChar (c : Char) : List Char → List (List Char)
  | [] => [[]]
  | x :: xs =>
    let rest := splitOnChar c xs
    if x = c then [] :: rest
    else
      match rest with
      | [] => [[x]]
      | r :: rs => (x :: r) :: rs

/-- Python `s.split(c)` for a single-character separator. -/
def pySplit (c : Char) (s : String) : List String :=
  (splitOnChar c s.toList).map String.mk

/-- Non-empty `/`-separated components of a path string
(`pathlib` ignores empty components such as a trailing slash). -/
def pathComponents (p : String) : List String :=
  (pySplit '/' p).filter (fun s => s ≠ "")

/-- `pathlib.Path(p).name`: the last path component. -/
def pathName (p : String) : String :=
  (pathComponents p).getLastD ""

/-- `pathlib.Path(p).parent.name`: the next-to-last path component. -/
def pathParentName (p : String) : String :=
  (pathComponents p).dropLast.getLastD ""

/-- `pathlib.Path(name).stem`: the final component without its last
suffix (a leading dot does not start a suffix). -/
def pathStem (p : String) : String :=
  let name := pathName p
  let parts := pySplit '.' name
  match parts with
  | [] => name
  | [_] => name
  | "" :: [_] => name
  | _ => String.intercalate "." parts.dropLast

/-- Python `s.endswith(suffix)`. -/
def pyEndsWith (s suffix : String) : Bool :=
  suffix.toList.isSuffixOf s.toList

/-- Python `s.upper()` (ASCII). -/
def pyUpper (s : String) : String :=
  String.mk (s.toList.map Char.toUpper)

/-- Python `s.lower()` (ASCII). -/
def pyLower (s : String) : String :=
  String.mk (s.toList.map Char.toLower)

/-- Python `s[:n]`: the first `n` characters. -/
def pyTake (s : String) (n : Nat) : String :=
  String.mk (s.toList.take n)

/-- The `SRAFileType` enum of `preprocessing.py`. -/
inductive SRAFileType where
  | submission
  | study
  | sample
  | experiment
  | run
  | analysis
deriving DecidableEq, Repr

/-- The enum member `name` (uppercase, as in the Python class). -/
def SRAFileType.enumName : SRAFileType → String
  | .submission => "SUBMISSION"
  | .study => "STUDY"
  | .sample => "SAMPLE"
  | .experiment => "EXPERIMENT"
  | .run => "RUN"
  | .analysis => "ANALYSIS"

/-- `cls[suffix]`: lookup of an enum member by its name; `KeyError`
becomes `none`. -/
def SRAFileType.ofName (s : String) : Option SRAFileType :=
  [SRAFileType.submission, .study, .sample, .experiment, .run,
    .analysis].find? (fun t => t.enumName = s)

/-- `SRAFileType.extract`: classify a filename by the final dot-segment
of its stem, upper-cased; unknown suffixes give `none`. -/
def SRAFileType.extract (filename : String) : Option SRAFileType :=
  let suffix := pyUpper ((pySplit '.' (pathStem filename)).getLastD "")
  SRAFileType.ofName suffix

/-- An XML element: tag, attributes, text and child elements
(`xml.etree.ElementTree` element). -/
inductive XElem where
  | mk (tag : String) (attrs : List (String × String))
      (text : Option String) (children : List XElem)

/-- The element's tag. -/
def XElem.tag : XElem → String
  | .mk t _ _ _ => t

/-- The element's attribute list. -/
def XElem.attrs : XElem → List (String × String)
  | .mk _ a _ _ => a

/-- The element's text (`None` modelled as `none`). -/
def XElem.text : XElem → Option String
  | .mk _ _ x _ => x

/-- The element's children. -/
def XElem.children : XElem → List XElem
  | .mk _ _ _ c => c

/-- `elem.get(key)`: attribute lookup. -/
def XElem.getAttr (e : XElem) (k : String) : Option String :=
  ((e.attrs.find? (fstIsS k)).map Prod.snd)

/-- One step of an `ElementTree` path expression: a tag, optionally
filtered by an `[@name='value']` attribute predicate. -/
structure PathStep where
  tag : String
  attr : Option (String × String)

/-- A plain tag step of a path expression. -/
def pstep (t : String) : PathStep := ⟨t, none⟩

/-- A tag step filtered by an attribute value, as in
`EXTERNAL_ID[@namespace='BioProject']`. -/
def pstepAttr (t k v : String) : PathStep := ⟨t, some (k, v)⟩

/-- Whether an element matches one path step. -/
def matchesStep (e : XElem) (s : PathStep) : Bool :=
  e.tag = s.tag &&
    (match s.attr with
     | none => true
     | some (k, v) => e.getAttr k = some v)

/-- All elements matched by a path, in document order: each step maps
the current candidates to their matching children, exactly as
`ElementPath` composes one generator per path step. -/
def findAll (steps : List PathStep) (e : XElem) : List XElem :=
  steps.foldl
    (fun cands s =>
      cands.flatMap (fun c => c.children.filter (fun ch => matchesStep ch s)))
    [e]

/-- `elem.find(path)`: the first element matching the path. -/
def XElem.findSteps (e : XElem) (steps : List PathStep) : Option XElem :=
  (findAll steps e).head?

/-- `elem.findtext(path)`: `none` when no element matches, otherwise the
matched element's text with `None` read as `""`. -/
def XElem.findtextSteps (e : XElem) (steps : List PathStep) :
    Option String :=
  (e.findSteps steps).map (fun r => r.text.getD "")

mutual
/-- All elements of the document with the given tag, in the order their
`end` events fire under `ET.iterparse` (children before parents,
siblings in document order). -/
def collectTag (tag : String) : XElem → List XElem
  | .mk t a x c =>
    collectTagList tag c ++ (if t = tag then [XElem.mk t a x c] else [])

/-- `collectTag` mapped over a sibling list. -/
def collectTagList (tag : String) : List XElem → List XElem
  | [] => []
  | e :: es => collectTag tag e ++ collectTagList tag es
end

/-- A `collections.Counter`: insertion-ordered association list from
keys (`None`-or-string) to counts. -/
abbrev Counter := List (Option String × Nat)

/-- `counter[k] += 1`: bump an existing key in place, or append the key
with count 1. -/
def counterAdd (c : Counter) (k : Option String) : Counter :=
  if c.any (fstIs k) then
    c.map (fun p => if fstIs k p then (p.1, p.2 + 1) else p)
  else c ++ [(k, 1)]

/-- `sum(counter.values())`. -/
def counterTotal (c : Counter) : Nat :=
  (c.map (fun p => p.2)).sum

/-- `k in counter`: key membership. -/
def counterMem (c : Counter) (k : Option String) : Bool :=
  c.any (fstIs k)

/-- The count stored for a key (0 when absent). -/
def counterCount (c : Counter) (k : Option String) : Nat :=
  match c.find? (fstIs k) with
  | some p => p.2
  | none => 0

/-- A parser result `data` dict: insertion-ordered association list from
field names (`None`-or-string, since sample-attribute tags can lack
text) to counters. -/
abbrev DataMap := List (Option String × Counter)

/-- `data.setdefault(k, Counter())[v] += 1`. -/
def dmAdd (d : DataMap) (k : Option String) (v : Option String) :
    DataMap :=
  if d.any (fstIs k) then
    d.map (fun p => if fstIs k p then (p.1, counterAdd p.2 v) else p)
  else d ++ [(k, counterAdd [] v)]

/-- Lookup of a field's counter in a `data` dict. -/
def dmLookup (d : DataMap) (k : Option String) : Option Counter :=
  (d.find? (fstIs k)).map Prod.snd

/-- Process one `STUDY` element of a study document (body of the
`iterparse` loop of `parse_study_xml`): every field, found or not, is
added to its counter. -/
def processStudy (data : DataMap) (e : XElem) : DataMap :=
  let SRP_ID := e.findtextSteps [pstep "IDENTIFIERS", pstep "PRIMARY_ID"]
  let bioproject := e.findtextSteps
    [pstep "IDENTIFIERS", pstepAttr "EXTERNAL_ID" "namespace" "BioProject"]
  let title := e.findtextSteps [pstep "DESCRIPTOR", pstep "STUDY_TITLE"]
  let abstract := e.findtextSteps
    [pstep "DESCRIPTOR", pstep "STUDY_ABSTRACT"]
  let study_type :=
    match e.findSteps [pstep "DESCRIPTOR", pstep "STUDY_TYPE"] with
    | some st_elem => (st_elem.getAttr "existing_study_type").getD ""
    | none => ""
  let data := dmAdd data (some "SRP_ID") SRP_ID
  let data := dmAdd data (some "bioproject") bioproject
  let data := dmAdd data (some "title") title
  let data := dmAdd data (some "study_type") (some study_type)
  dmAdd data (some "abstract") abstract

/-- `SRAFileParser.parse_study_xml`. -/
def parse_study_xml (doc : XElem) : DataMap :=
  (collectTag "STUDY" doc).foldl processStudy
    [(some "SRP_ID", []), (some "bioproject", []), (some "title", []),
      (some "study_type", []), (some "abstract", [])]

/-- The species of one `SAMPLE` element:
`elem.findtext("SAMPLE_NAME/SCIENTIFIC_NAME") or "NA"`. -/
def speciesOf (e : XElem) : String :=
  pyOr (e.findtextSteps [pstep "SAMPLE_NAME", pstep "SCIENTIFIC_NAME"])
    "NA"

/-- Python dict construction from a pair list: a later duplicate key
overwrites the value but keeps the first insertion position. -/
def pyDict (l : List (Option String × String)) :
    List (Option String × String) :=
  l.foldl
    (fun d kv =>
      if d.any (fstIs kv.1) then
        d.map (fun p => if fstIs kv.1 p then (p.1, kv.2) else p)
      else d ++ [kv])
    []

/-- The `attributes` dict of one `SAMPLE` element: each child of
`SAMPLE_ATTRIBUTES` is unpacked as `(tag, *value)` (no child at all is
an unpacking `ValueError`); the value is the space-joined text of the
value nodes with non-truthy texts dropped. -/
def sampleAttributes (e : XElem) :
    Except String (List (Option String × String)) :=
  match e.findSteps [pstep "SAMPLE_ATTRIBUTES"] with
  | none => .ok []
  | some sae => do
    let pairs ← sae.children.mapM (fun a =>
      match a.children with
      | [] => .error "ValueError: not enough values to unpack"
      | t :: vs =>
        .ok (t.text,
          String.intercalate " "
            ((vs.map XElem.text).filterMap
              (fun o => if pyTruthy o then o else none))))
    .ok (pyDict pairs)

/-- Process one `SAMPLE` element (body of the `iterparse` loop of
`parse_sample_xml`): species always counted (defaulted to `"NA"`),
title only when present, then every attribute pair. -/
def processSample (data : DataMap) (e : XElem) : Except String DataMap :=
  let title := e.findtextSteps [pstep "TITLE"]
  let species := speciesOf e
  match sampleAttributes e with
  | .error msg => .error msg
  | .ok attributes =>
    let data := dmAdd data (some "species") (some species)
    let data :=
      match title with
      | some t => dmAdd data (some "title") (some t)
      | none => data
    .ok (attributes.foldl (fun d kv => dmAdd d kv.1 (some kv.2)) data)

/-- `SRAFileParser.parse_sample_xml`. -/
def parse_sample_xml (doc : XElem) : Except String DataMap :=
  (collectTag "SAMPLE" doc).foldlM processSample
    [(some "title", []), (some "species", [])]

/-- `if value is not None: data[key][value] += 1`. -/
def optAdd (data : DataMap) (k : Option String) (o : Option String) :
    DataMap :=
  match o with
  | some t => dmAdd data k (some t)
  | none => data

/-- Add one `EXPERIMENT` element's extracted fields to the `data` dict,
in source order: guarded title and design description, the guarded
library-descriptor dict entries (name, strategy, source, selection,
then the always-present layout), then the optional platform pair. -/
def addExperimentFields (data : DataMap)
    (title design_descr lname lstrat lsrc lsel : Option String)
    (llayout : String) (platform : Option (String × Option String)) :
    DataMap :=
  let data := optAdd data (some "title") title
  let data := optAdd data (some "design_description") design_descr
  let data := optAdd data (some "library_name") lname
  let data := optAdd data (some "library_strategy") lstrat
  let data := optAdd data (some "library_source") lsrc
  let data := optAdd data (some "library_selection") lsel
  let data := dmAdd data (some "library_layout") (some llayout)
  match platform with
  | some (tech, instr) =>
    dmAdd (dmAdd data (some "platform_technology") (some tech))
      (some "platform_instrument") instr
  | none => data

/-- Process one `EXPERIMENT` element (body of the `iterparse` loop of
`parse_experiment_xml`): a missing `LIBRARY_LAYOUT` element is a
`TypeError` (iteration over `None`), a `PLATFORM` element with more
than one child is a `ValueError`, an empty one an `IndexError`. -/
def processExperiment (data : DataMap) (e : XElem) :
    Except String DataMap :=
  let title := e.findtextSteps [pstep "TITLE"]
  let design_descr := e.findtextSteps
    [pstep "DESIGN", pstep "DESIGN_DESCRIPTION"]
  let lname := e.findtextSteps
    [pstep "DESIGN", pstep "LIBRARY_DESCRIPTOR", pstep "LIBRARY_NAME"]
  let lstrat := e.findtextSteps
    [pstep "DESIGN", pstep "LIBRARY_DESCRIPTOR", pstep "LIBRARY_STRATEGY"]
  let lsrc := e.findtextSteps
    [pstep "DESIGN", pstep "LIBRARY_DESCRIPTOR", pstep "LIBRARY_SOURCE"]
  let lsel := e.findtextSteps
    [pstep "DESIGN", pstep "LIBRARY_DESCRIPTOR", pstep "LIBRARY_SELECTION"]
  match e.findSteps
      [pstep "DESIGN", pstep "LIBRARY_DESCRIPTOR", pstep "LIBRARY_LAYOUT"] with
  | none => .error "TypeError: NoneType object is not iterable"
  | some layout_elem =>
    let llayout :=
      String.intercalate "|" (layout_elem.children.map XElem.tag)
    match e.findSteps [pstep "PLATFORM"] with
    | none =>
      .ok (addExperimentFields data title design_descr lname lstrat
        lsrc lsel llayout none)
    | some platform_elem =>
      if platform_elem.children.length > 1 then
        .error "ValueError: Invalid PLATFORM element"
      else
        match platform_elem.children with
        | [] => .error "IndexError: child index out of range"
        | c :: _ =>
          .ok (addExperimentFields data title design_descr lname lstrat
            lsrc lsel llayout
            (some (c.tag, c.findtextSteps [pstep "INSTRUMENT_MODEL"])))

/-- `SRAFileParser.parse_experiment_xml`. -/
def parse_experiment_xml (doc : XElem) : Except String DataMap :=
  (collectTag "EXPERIMENT" doc).foldlM processExperiment
    [(some "title", []), (some "design_description", []),
      (some "library_name", []), (some "library_strategy", []),
      (some "library_source", []), (some "library_selection", []),
      (some "library_layout", []), (some "platform_technology", []),
      (some "platform_instrument", [])]

/-- The three field names rendered verbatim by the aggregator
(`attr in {"SRP_ID", "bioproject", "title"}`). -/
def identifierFields : List (Option String) :=
  [some "SRP_ID", some "bioproject", some "title"]

/-- `max(count_dict.values())` (0 on an empty counter; the aggregator
only evaluates it on non-empty ones). -/
def maxCounts (c : Counter) : Nat :=
  (c.map (fun p => p.2)).foldl Nat.max 0

/-- The pieces joined with `"|"` by the aggregator: bare keys for the
identifier-like fields, `value(N=count)` pairs otherwise. -/
def renderPieces (attr : Option String) (c : Counter) : List String :=
  if attr ∈ identifierFields then c.map (fun p => pyStr p.1)
  else c.map (fun p => pyStr p.1 ++ "(N=" ++ toString p.2 ++ ")")

/-- One iteration of the `aggregate_results` loop: `none` when the
field is skipped, otherwise the summary string. -/
def aggregateField (attr : Option String) (c : Counter)
    (min_samples min_count : Nat) : Option String :=
  if c.isEmpty then none
  else if attr ∈ identifierFields then
    some (String.intercalate "|" (renderPieces attr c))
  else if maxCounts c < min_count ∧ c.length > min_samples then none
  else some (String.intercalate "|" (renderPieces attr c))

/-- An aggregated summary: insertion-ordered association list from
field names to formatted strings. -/
abbrev SMap := List (Option String × String)

/-- `SRAFileParser.aggregate_results` (`data is None` gives `{}`). -/
def aggregate_results (data : Option DataMap) (min_samples : Nat := 10)
    (min_count : Nat := 3) : SMap :=
  match data with
  | none => []
  | some d =>
    d.foldl
      (fun summary ac =>
        match aggregateField ac.1 ac.2 min_samples min_count with
        | some v => summary ++ [(ac.1, v)]
        | none => summary)
      []

/-- `summary.get(k, d)` for a string key. -/
def smGet (m : SMap) (k : String) (d : String) : String :=
  ((m.find? (fstIs (some k))).map Prod.snd).getD d

/-- `summary.pop(k, d)` for a string key: the stored value (or the
default) together with the dict with that key removed. -/
def smPop (m : SMap) (k : String) (d : String) : String × SMap :=
  match m.find? (fstIs (some k)) with
  | some p => (p.2, m.eraseP (fstIs (some k)))
  | none => (d, m)

/-- The list of `"field: value"` lines joined into the record text (an
absent or empty experiment summary is falsy and contributes nothing). -/
def bodyLines (study_info sample_info : SMap)
    (experiment_info : Option SMap) : List String :=
  study_info.map (fun p => pyStr p.1 ++ ": " ++ p.2) ++
  sample_info.map (fun p => pyStr p.1 ++ ": " ++ p.2) ++
  (match experiment_info with
   | some l =>
     if l.isEmpty then [] else l.map (fun p => pyStr p.1 ++ ": " ++ p.2)
   | none => [])

/-- The `metadata` dict of an emitted record. -/
structure Metadata where
  sra_id : String
  bioproject : String
  srp_id : String
  species : String
deriving DecidableEq, Repr

/-- One emitted record: `{"text": ..., "metadata": ...}`. -/
structure Record where
  text : String
  metadata : Metadata
deriving DecidableEq, Repr

/-- `SRAFileParser.format_study_data`. -/
def format_study_data (sra_id : String) (study_info sample_info : SMap)
    (experiment_info : Option SMap := none) : Record :=
  let pb := smPop study_info "bioproject" ""
  let bioproject := pb.1
  let ps := smPop pb.2 "SRP_ID" ""
  let srp_id := ps.1
  let species := pyLower (smGet sample_info "species" "")
  { text := String.intercalate "\n" (bodyLines ps.2 sample_info
      experiment_info),
    metadata :=
      { sra_id := sra_id,
        bioproject := pyTake bioproject 300,
        srp_id := pyTake srp_id 300,
        species := pyTake species 300 } }

/-- One member of the tar archive: a directory, or a file with its name
and (for XML members) already-decoded content. -/
inductive TarMember where
  | dir (name : String)
  | file (name : String) (content : XElem)

/-- A study group's file bundle: dict from the lowercase file-type name
to the buffered document. -/
abbrev Files := List (String × XElem)

/-- `files[k] = v`: dict update (overwrite in place or append). -/
def filesSet (m : Files) (k : String) (v : XElem) : Files :=
  if m.any (fstIsS k) then
    m.map (fun p => if fstIsS k p then (p.1, v) else p)
  else m ++ [(k, v)]

/-- Lookup in a file bundle. -/
def filesLookup (m : Files) (k : String) : Option XElem :=
  (m.find? (fstIsS k)).map Prod.snd

/-- The loop of `SRAFileParser.iter_sra`, with explicit state: the
current bundle `files`, the current group id `last` (initially Python
`None`) and the already-yielded groups `acc`.  A directory flushes the
previous non-empty bundle and opens a new group; an `.xml` file must
sit in the current group's directory (otherwise the `assert` fires),
and is stored when its type suffix is recognized; other members are
ignored.  At end of stream a non-empty bundle is flushed. -/
def iterSraGo : List TarMember → Files → Option String →
    List (Option String × Files) →
    Except String (List (Option String × Files))
  | [], files, last, acc =>
    .ok (acc ++ if files.isEmpty then [] else [(last, files)])
  | .dir name :: rest, files, last, acc =>
    iterSraGo rest [] (some (pathName name))
      (acc ++ if files.isEmpty then [] else [(last, files)])
  | .file name content :: rest, files, last, acc =>
    if pyEndsWith name ".xml" then
      if (match last with
          | some l => pathParentName name = l
          | none => false : Bool) then
        match SRAFileType.extract name with
        | some ftype =>
          iterSraGo rest (filesSet files (pyLower ftype.enumName) content)
            last acc
        | none => iterSraGo rest files last acc
      else .error ("AssertionError: Unexpected folder structure: " ++ name)
    else iterSraGo rest files last acc

/-- `SRAFileParser.iter_sra`: walk the archive members in order and
yield `(group id, bundle)` pairs. -/
def iter_sra (members : List TarMember) :
    Except String (List (Option String × Files)) :=
  iterSraGo members [] none []

/-- The experiment-info step of `iterparse_sra`:
`parse_experiment_xml(files["experiment"]) if "experiment" in files
else None`. -/
def expResult (files : Files) : Except String (Option DataMap) :=
  match filesLookup files "experiment" with
  | some edoc => (parse_experiment_xml edoc).map some
  | none => .ok none

/-- The per-group body of the `iterparse_sra` loop: skip groups missing
a study or sample document, parse, drop single-sample and
non-human/mouse studies, and otherwise format the aggregated record. -/
def processGroup (sra_id : Option String) (files : Files) :
    Except String (Option Record) :=
  match filesLookup files "study", filesLookup files "sample" with
  | some sdoc, some samdoc =>
    let study_info := parse_study_xml sdoc
    match parse_sample_xml samdoc with
    | .error e => .error e
    | .ok sample_info =>
      match expResult files with
      | .error e => .error e
      | .ok experiment_info =>
        let species := (dmLookup sample_info (some "species")).getD []
        if counterTotal species ≤ 1 then .ok none
        else if !(counterMem species (some "Homo sapiens") ||
            counterMem species (some "Mus musculus")) then .ok none
        else
          .ok (some (format_study_data (pyStr sra_id)
            (aggregate_results (some study_info))
            (aggregate_results (some sample_info))
            (some (aggregate_results experiment_info))))
  | _, _ => .ok none

/-- `SRAFileParser.iterparse_sra`: the full pipeline from archive
members to the list of emitted records. -/
def iterparse_sra (members : List TarMember) :
    Except String (List Record) := do
  let groups ← iter_sra members
  let recs ← groups.mapM (fun g => processGroup g.1 g.2)
  .ok recs.reduceOption

/-- A frequency table built by inserting occurrences one at a time, the
way every extractor populates its `Counter`s. -/
def buildCounter (l : List (Option String)) : Counter :=
  l.foldl counterAdd []

/-! Concrete documents and archives used to instantiate the theorems. -/

/-- An element with children only. -/
def elemN (tag : String) (children : List XElem) : XElem :=
  .mk tag [] none children

/-- A leaf element with text. -/
def elemT (tag : String) (text : String) : XElem :=
  .mk tag [] (some text) []

/-- The `study.xml` of the end-to-end scenario: accession `SRP000001`,
BioProject id `PRJNA1`, title `T`. -/
def demoStudyDoc : XElem :=
  elemN "STUDY_SET" [
    elemN "STUDY" [
      elemN "IDENTIFIERS" [
        elemT "PRIMARY_ID" "SRP000001",
        XElem.mk "EXTERNAL_ID" [("namespace", "BioProject")]
          (some "PRJNA1") []],
      elemN "DESCRIPTOR" [elemT "STUDY_TITLE" "T"]]]

/-- A `SAMPLE` element of species `Homo sapiens` with one
`tissue=<value>` attribute. -/
def demoSampleElem (tissue : String) : XElem :=
  elemN "SAMPLE" [
    elemN "SAMPLE_NAME" [elemT "SCIENTIFIC_NAME" "Homo sapiens"],
    elemN "SAMPLE_ATTRIBUTES" [
      elemN "SAMPLE_ATTRIBUTE" [elemT "TAG" "tissue", elemT "VALUE" tissue]]]

/-- The `sample.xml` of the end-to-end scenario: two human samples,
`tissue=liver` and `tissue=skin`. -/
def demoSampleDoc : XElem :=
  elemN "SAMPLE_SET" [demoSampleElem "liver", demoSampleElem "skin"]

/-- The end-to-end scenario archive: one group directory `SRP000001`
with its study and sample documents. -/
def demoMembers : List TarMember :=
  [.dir "SRP000001",
   .file "SRP000001/SRP000001.study.xml" demoStudyDoc,
   .file "SRP000001/SRP000001.sample.xml" demoSampleDoc]

/-- The record the pipeline emits for the scenario archive. -/
def demoRecord : Record :=
  { text := "title: T\nstudy_type: (N=1)\nabstract: None(N=1)\nspecies: Homo sapiens(N=2)\ntissue: liver(N=1)|skin(N=1)",
    metadata := ⟨"SRP000001", "PRJNA1", "SRP000001", "homo sapiens(n=2)"⟩ }

/-- A `STUDY` element carrying none of the extracted fields. -/
def demoBareStudyElem : XElem := elemN "STUDY" []

/-- A study document whose single `STUDY` element has no fields. -/
def demoEmptyStudyDoc : XElem := elemN "STUDY_SET" [demoBareStudyElem]

/-- A sample document with one `SAMPLE` whose attribute tag is itself
named `species`. -/
def demoAttrSampleDoc : XElem :=
  elemN "SAMPLE_SET" [
    elemN "SAMPLE" [
      elemN "SAMPLE_NAME" [elemT "SCIENTIFIC_NAME" "Homo sapiens"],
      elemN "SAMPLE_ATTRIBUTES" [
        elemN "SAMPLE_ATTRIBUTE" [elemT "TAG" "species", elemT "VALUE" "x"]]]]

/-- A sample document with a single human sample and no attributes. -/
def demoSingleSampleDoc : XElem :=
  elemN "SAMPLE_SET" [
    elemN "SAMPLE" [
      elemN "SAMPLE_NAME" [elemT "SCIENTIFIC_NAME" "Homo sapiens"]]]

/-- A bundle with a study document and a single-sample sample document. -/
def demoSingleFiles : Files :=
  [("study", demoStudyDoc), ("sample", demoSingleSampleDoc)]

/-- The tables extracted from the single-sample document. -/
def demoSingleData : DataMap :=
  [(some "title", []), (some "species", [(some "Homo sapiens", 1)])]

/-- The bundle the walker builds for the scenario archive. -/
def demoFilesBundle : Files :=
  [("study", demoStudyDoc), ("sample", demoSampleDoc)]

/-- A `PLATFORM` element with two technology-flag children. -/
def demoBadPlatformElem : XElem :=
  elemN "PLATFORM" [
    elemN "ILLUMINA" [elemT "INSTRUMENT_MODEL" "X"],
    elemN "OXFORD_NANOPORE" []]

/-- An `EXPERIMENT` element with a valid library layout but an
ambiguous platform. -/
def demoBadExpElem : XElem :=
  elemN "EXPERIMENT" [
    elemN "DESIGN" [
      elemN "LIBRARY_DESCRIPTOR" [
        elemN "LIBRARY_LAYOUT" [elemN "SINGLE" []]]],
    demoBadPlatformElem]

/-- An experiment document containing the ambiguous-platform element. -/
def demoBadPlatformDoc : XElem := elemN "EXPERIMENT_SET" [demoBadExpElem]

/-- Ten distinct values, each with count `min_count - 1 = 2`. -/
def demoWideRest : Counter :=
  [(some "v1", 2), (some "v2", 2), (some "v3", 2), (some "v4", 2),
   (some "v5", 2), (some "v6", 2), (some "v7", 2), (some "v8", 2),
   (some "v9", 2), (some "v10", 2)]

/-- Eleven (= `min_samples + 1`) distinct values, each with count 2. -/
def demoWideTable : Counter := (some "v0", 2) :: demoWideRest

/-- Fifty distinct titles, each seen once. -/
def demoTitleTable : Counter :=
  [(some "t0", 1), (some "t1", 1), (some "t2", 1), (some "t3", 1),
   (some "t4", 1), (some "t5", 1), (some "t6", 1), (some "t7", 1),
   (some "t8", 1), (some "t9", 1), (some "t10", 1), (some "t11", 1),
   (some "t12", 1), (some "t13", 1), (some "t14", 1), (some "t15", 1),
   (some "t16", 1), (some "t17", 1), (some "t18", 1), (some "t19", 1),
   (some "t20", 1), (some "t21", 1), (some "t22", 1), (some "t23", 1),
   (some "t24", 1), (some "t25", 1), (some "t26", 1), (some "t27", 1),
   (some "t28", 1), (some "t29", 1), (some "t30", 1), (some "t31", 1),
   (some "t32", 1), (some "t33", 1), (some "t34", 1), (some "t35", 1),
   (some "t36", 1), (some "t37", 1), (some "t38", 1), (some "t39", 1),
   (some "t40", 1), (some "t41", 1), (some "t42", 1), (some "t43", 1),
   (some "t44", 1), (some "t45", 1), (some "t46", 1), (some "t47", 1),
   (some "t48", 1), (some "t49", 1)]

/-- The tables `parse_sample_xml` extracts from the scenario sample
document. -/
def demoSampleData : DataMap :=
  [(some "title", []),
   (some "species", [(some "Homo sapiens", 2)]),
   (some "tissue", [(some "liver", 1), (some "skin", 1)])]

/-- A small aggregated study summary with distinct keys. -/
def demoStudySummary : SMap :=
  [(some "SRP_ID", "S1"), (some "bioproject", "B1"), (some "title", "T1")]

/-- A small aggregated sample summary. -/
def demoSampleSummary : SMap := [(some "species", "Homo sapiens(N=2)")]

/-- Two insertion orders of the same multiset of occurrences. -/
def demoOccurrencesA : List (Option String) :=
  [some "a", some "b", none, some "a"]

/-- A permutation of `demoOccurrencesA`. -/
def demoOccurrencesB : List (Option String) :=
  [none, some "a", some "a", some "b"]

/-! Theorems. -/

/-- C1, counterexample: on the scenario archive the pipeline emits a
single record, but its `species` metadata is the lowercased aggregated
summary string `"homo sapiens(n=2)"`, not `"homo sapiens"` — the
metadata does not equal the map the claim states. -/
theorem C1_counterexample :
    iterparse_sra demoMembers = .ok [demoRecord] ∧
      demoRecord.metadata ≠
        ⟨"SRP000001", "PRJNA1", "SRP000001", "homo sapiens"⟩ :=
  ⟨rfl, by decide⟩

/-- C1, amended: on the scenario archive the single emitted record has
metadata `{sra_id: "SRP000001", bioproject: "PRJNA1", srp_id:
"SRP000001", species: "homo sapiens(n=2)"}` (the species metadata is
the lowercased aggregated summary, count annotation included) and its
text contains the line `tissue: liver(N=1)|skin(N=1)`. -/
theorem C1_end_to_end :
    iterparse_sra demoMembers = .ok [demoRecord] ∧
      demoRecord.metadata =
        ⟨"SRP000001", "PRJNA1", "SRP000001", "homo sapiens(n=2)"⟩ ∧
      "tissue: liver(N=1)|skin(N=1)" ∈ pySplit '\n' demoRecord.text :=
  ⟨rfl, rfl, by decide⟩

/-- C2, counterexample: the scenario record's free-text body contains
the line `title: T` — the title is not removed from the body (and not
promoted into metadata). -/
theorem C2_counterexample :
    iterparse_sra demoMembers = .ok [demoRecord] ∧
      "title: T" ∈ pySplit '\n' demoRecord.text :=
  ⟨rfl, by decide⟩

/-- `pop` returns the stored value (or the default when absent). -/
theorem smPop_fst (m : SMap) (k d : String) :
    (smPop m k d).1 = smGet m k d := by
  unfold smPop smGet
  cases h : m.find? (fstIs (some k)) <;> simp [h]

/-- `pop` removes the (first) entry with the popped key. -/
theorem smPop_snd (m : SMap) (k d : String) :
    (smPop m k d).2 = m.eraseP (fstIs (some k)) := by
  unfold smPop
  cases h : m.find? (fstIs (some k)) with
  | none =>
    simp only
    exact (List.eraseP_of_forall_not (List.find?_eq_none.mp h)).symm
  | some p => simp

/-- Removing one key's entry leaves lookups of a different key alone. -/
theorem smGet_eraseP_ne (m : SMap) (k k' d : String) (h : k ≠ k') :
    smGet (m.eraseP (fstIs (some k'))) k d = smGet m k d := by
  induction m with
  | nil => simp
  | cons a m ih =>
    rw [List.eraseP_cons]
    by_cases ha : fstIs (some k') a
    · have hka : fstIs (some k) a = false := by
        simp only [fstIs, decide_eq_true_eq] at ha
        simp [fstIs, ha, Ne.symm h]
      simp [ha, smGet, List.find?_cons, hka]
    · by_cases hka : fstIs (some k) a
      · simp [ha, smGet, List.find?_cons, hka]
      · simpa [ha, smGet, List.find?_cons, hka] using ih

/-- With duplicate-free keys, erasing a key's entry removes the key
from the key list entirely. -/
theorem not_mem_keys_eraseP (m : SMap) (k : String)
    (hnd : (m.map Prod.fst).Nodup) :
    some k ∉ (m.eraseP (fstIs (some k))).map Prod.fst := by
  induction m with
  | nil => simp
  | cons a m ih =>
    rw [List.map_cons, List.nodup_cons] at hnd
    rw [List.eraseP_cons]
    by_cases ha : fstIs (some k) a
    · have hak : a.1 = some k := by
        simpa [fstIs] using ha
      simp only [ha, cond_true]
      rw [← hak]
      exact hnd.1
    · have hak : a.1 ≠ some k := by
        simpa [fstIs] using ha
      simp only [ha, cond_false, List.map_cons, List.mem_cons]
      rintro (hc | hc)
      · exact hak hc.symm
      · exact ih hnd.2 hc

/-- Erasure preserves absence of a key. -/
theorem not_mem_keys_eraseP_of_not_mem {m : SMap} {x : Option String}
    (p : Option String × String → Bool)
    (h : x ∉ m.map Prod.fst) : x ∉ (m.eraseP p).map Prod.fst :=
  fun hc =>
    h (((List.eraseP_sublist m).map Prod.fst).mem hc)

/-- C2, amended: `format_study_data` pops the bio-registry id and the
accession id out of the study summary into metadata (truncated to 300
characters, alongside the group id and the lowercased species string),
and the body is rendered from the study summary with those two fields
removed — but the title is not popped: it stays in the body and is not
part of the metadata. -/
theorem C2_promote (sra_id : String) (st sa : SMap) (ex : Option SMap)
    (hnd : (st.map Prod.fst).Nodup) :
    (format_study_data sra_id st sa ex).metadata =
      ⟨sra_id, pyTake (smGet st "bioproject" "") 300,
        pyTake (smGet st "SRP_ID" "") 300,
        pyTake (pyLower (smGet sa "species" "")) 300⟩ ∧
    (format_study_data sra_id st sa ex).text =
      String.intercalate "\n"
        (bodyLines
          ((st.eraseP (fstIs (some "bioproject"))).eraseP
            (fstIs (some "SRP_ID"))) sa ex) ∧
    some "bioproject" ∉
      ((st.eraseP (fstIs (some "bioproject"))).eraseP
        (fstIs (some "SRP_ID"))).map Prod.fst ∧
    some "SRP_ID" ∉
      ((st.eraseP (fstIs (some "bioproject"))).eraseP
        (fstIs (some "SRP_ID"))).map Prod.fst := by
  have hnd1 : ((st.eraseP (fstIs (some "bioproject"))).map Prod.fst).Nodup :=
    (((List.eraseP_sublist st).map Prod.fst)).nodup hnd
  refine ⟨?_, ?_, ?_, ?_⟩
  · unfold format_study_data
    simp only [smPop_fst, smPop_snd]
    rw [smGet_eraseP_ne st "SRP_ID" "bioproject" "" (by decide)]
  · unfold format_study_data
    simp only [smPop_snd]
  · exact not_mem_keys_eraseP_of_not_mem _
      (not_mem_keys_eraseP st "bioproject" hnd)
  · exact not_mem_keys_eraseP
      (st.eraseP (fstIs (some "bioproject"))) "SRP_ID" hnd1

/-- C2 witness: the promotion theorem applied to a concrete summary. -/
theorem C2_promote_witness :
    (demoStudySummary.map Prod.fst).Nodup ∧
    ((format_study_data "G" demoStudySummary demoSampleSummary
        none).metadata =
      ⟨"G", pyTake (smGet demoStudySummary "bioproject" "") 300,
        pyTake (smGet demoStudySummary "SRP_ID" "") 300,
        pyTake (pyLower (smGet demoSampleSummary "species" "")) 300⟩ ∧
    (format_study_data "G" demoStudySummary demoSampleSummary
        none).text =
      String.intercalate "\n"
        (bodyLines
          ((demoStudySummary.eraseP (fstIs (some "bioproject"))).eraseP
            (fstIs (some "SRP_ID"))) demoSampleSummary none) ∧
    some "bioproject" ∉
      ((demoStudySummary.eraseP (fstIs (some "bioproject"))).eraseP
        (fstIs (some "SRP_ID"))).map Prod.fst ∧
    some "SRP_ID" ∉
      ((demoStudySummary.eraseP (fstIs (some "bioproject"))).eraseP
        (fstIs (some "SRP_ID"))).map Prod.fst) :=
  ⟨by decide,
    C2_promote "G" demoStudySummary demoSampleSummary none (by decide)⟩

/-- Every entry of a bumped counter is an old entry or carries the
inserted key. -/
theorem mem_counterAdd {c : Counter} {k : Option String} {q}
    (h : q ∈ counterAdd c k) : q ∈ c ∨ q.1 = k := by
  unfold counterAdd at h
  by_cases hc : c.any (fstIs k)
  · rw [if_pos hc] at h
    obtain ⟨p, hp, hq⟩ := List.mem_map.mp h
    by_cases hk : fstIs k p
    · right
      rw [if_pos hk] at hq
      simp only [fstIs, decide_eq_true_eq] at hk
      rw [← hq]
      exact hk
    · left
      rw [if_neg hk] at hq
      rwa [← hq]
  · rw [if_neg hc] at h
    rcases List.mem_append.mp h with h1 | h1
    · exact Or.inl h1
    · right
      rw [List.mem_singleton.mp h1]

/-- `dmAdd` preserves "no counter of a good field holds a null key",
provided the inserted value is non-null whenever the target field is
good. -/
theorem dmAdd_preserves_no_null (good : Option String → Prop)
    {d : DataMap} {k v : Option String}
    (hv : good k → v ≠ none)
    (h : ∀ p ∈ d, good p.1 → ∀ q ∈ p.2, q.1 ≠ none) :
    ∀ p ∈ dmAdd d k v, good p.1 → ∀ q ∈ p.2, q.1 ≠ none := by
  intro p hp hgood q hq
  unfold dmAdd at hp
  by_cases hd : d.any (fstIs k)
  · rw [if_pos hd] at hp
    obtain ⟨p0, hp0, hpe⟩ := List.mem_map.mp hp
    by_cases hk : fstIs k p0
    · rw [if_pos hk] at hpe
      simp only [fstIs, decide_eq_true_eq] at hk
      subst hpe
      rcases mem_counterAdd hq with h1 | h1
      · exact h p0 hp0 hgood q h1
      · rw [h1]
        exact hv (hk ▸ hgood)
    · rw [if_neg hk] at hpe
      subst hpe
      exact h p0 hp0 hgood q hq
  · rw [if_neg hd] at hp
    rcases List.mem_append.mp hp with h1 | h1
    · exact h p h1 hgood q hq
    · rw [List.mem_singleton.mp h1] at hgood hq
      rcases mem_counterAdd (show q ∈ counterAdd [] v from hq) with h1 | h1
      · simp at h1
      · rw [h1]
        exact hv hgood

/-- A property preserved by each successful step of a monadic fold over
`Except` holds of the final result. -/
theorem foldlM_except_preserves {α σ : Type} (P : σ → Prop)
    (f : σ → α → Except String σ)
    (hf : ∀ s a r, P s → f s a = .ok r → P r) :
    ∀ (l : List α) (init res : σ), P init →
      l.foldlM f init = .ok res → P res := by
  intro l
  induction l with
  | nil =>
    intro init res hinit heq
    simp only [List.foldlM_nil] at heq
    cases heq
    exact hinit
  | cons a l ih =>
    intro init res hinit hEq
    rw [List.foldlM_cons] at hEq
    cases hs : f init a with
    | error msg =>
      rw [hs] at hEq
      exact nomatch hEq
    | ok s =>
      rw [hs] at hEq
      exact ih s res (hf init a s hinit hs) hEq

/-- A fold of attribute insertions (always string-valued) preserves the
no-null-entry property. -/
theorem foldl_attr_preserves_no_null (good : Option String → Prop)
    (attrs : List (Option String × String)) :
    ∀ (d : DataMap), (∀ p ∈ d, good p.1 → ∀ q ∈ p.2, q.1 ≠ none) →
      ∀ p ∈ attrs.foldl (fun d kv => dmAdd d kv.1 (some kv.2)) d,
        good p.1 → ∀ q ∈ p.2, q.1 ≠ none := by
  induction attrs with
  | nil => intro d h; exact h
  | cons kv attrs ih =>
    intro d h
    rw [List.foldl_cons]
    exact ih _ (dmAdd_preserves_no_null good (fun _ => by simp) h)

/-- Processing a sample element only ever inserts string values. -/
theorem processSample_no_null {data : DataMap} {e : XElem} {m : DataMap}
    (h : ∀ p ∈ data, ∀ q ∈ p.2, q.1 ≠ none)
    (heq : processSample data e = .ok m) :
    ∀ p ∈ m, ∀ q ∈ p.2, q.1 ≠ none := by
  unfold processSample at heq
  cases ha : sampleAttributes e with
  | error msg => rw [ha] at heq; cases heq
  | ok attributes =>
    rw [ha] at heq
    simp only at heq
    cases heq
    have h1 := dmAdd_preserves_no_null (fun _ => True)
      (k := some "species") (v := some (speciesOf e)) (fun _ => by simp)
      (fun p hp _ => h p hp)
    have h2 : ∀ p ∈ (match e.findtextSteps [pstep "TITLE"] with
        | some t => dmAdd (dmAdd data (some "species")
            (some (speciesOf e))) (some "title") (some t)
        | none => dmAdd data (some "species") (some (speciesOf e))),
        ∀ q ∈ p.2, q.1 ≠ none := by
      cases ht : e.findtextSteps [pstep "TITLE"] with
      | none =>
        simp only
        exact fun p hp => h1 p hp trivial
      | some t =>
        simp only
        exact fun p hp =>
          dmAdd_preserves_no_null (fun _ => True) (fun _ => by simp)
            (fun p hp _ => h1 p hp trivial) p hp trivial
    intro p hp
    exact foldl_attr_preserves_no_null (fun _ => True) attributes _
      (fun p hp _ => h2 p hp) p hp trivial

/-- A guarded insertion preserves the no-null-entry property of good
fields, since it only ever inserts string values. -/
theorem optAdd_preserves_no_null (good : Option String → Prop)
    {d : DataMap} (k o : Option String)
    (h : ∀ p ∈ d, good p.1 → ∀ q ∈ p.2, q.1 ≠ none) :
    ∀ p ∈ optAdd d k o, good p.1 → ∀ q ∈ p.2, q.1 ≠ none := by
  cases o with
  | none => exact h
  | some t =>
    exact dmAdd_preserves_no_null good (fun _ => by simp) h

/-- Adding an experiment element's fields puts null keys at most into
the `platform_instrument` table. -/
theorem addExperimentFields_no_null {data : DataMap}
    (title design_descr lname lstrat lsrc lsel : Option String)
    (llayout : String) (platform : Option (String × Option String))
    (h : ∀ p ∈ data, p.1 ≠ some "platform_instrument" →
      ∀ q ∈ p.2, q.1 ≠ none) :
    ∀ p ∈ addExperimentFields data title design_descr lname lstrat lsrc
        lsel llayout platform,
      p.1 ≠ some "platform_instrument" → ∀ q ∈ p.2, q.1 ≠ none := by
  unfold addExperimentFields
  have P := fun x : Option String => x ≠ some "platform_instrument"
  have h1 := optAdd_preserves_no_null
    (fun x => x ≠ some "platform_instrument") (some "title") title h
  have h2 := optAdd_preserves_no_null
    (fun x => x ≠ some "platform_instrument")
    (some "design_description") design_descr h1
  have h3 := optAdd_preserves_no_null
    (fun x => x ≠ some "platform_instrument") (some "library_name")
    lname h2
  have h4 := optAdd_preserves_no_null
    (fun x => x ≠ some "platform_instrument") (some "library_strategy")
    lstrat h3
  have h5 := optAdd_preserves_no_null
    (fun x => x ≠ some "platform_instrument") (some "library_source")
    lsrc h4
  have h6 := optAdd_preserves_no_null
    (fun x => x ≠ some "platform_instrument") (some "library_selection")
    lsel h5
  have h7 := dmAdd_preserves_no_null
    (fun x => x ≠ some "platform_instrument")
    (k := some "library_layout") (v := some llayout)
    (fun _ => by simp) h6
  cases platform with
  | none => exact h7
  | some ti =>
    obtain ⟨tech, instr⟩ := ti
    have h8 := dmAdd_preserves_no_null
      (fun x => x ≠ some "platform_instrument")
      (k := some "platform_technology") (v := some tech)
      (fun _ => by simp) h7
    exact dmAdd_preserves_no_null
      (fun x => x ≠ some "platform_instrument")
      (k := some "platform_instrument") (v := instr)
      (fun hk => absurd rfl hk) h8

/-- Processing an experiment element puts null keys at most into the
`platform_instrument` table. -/
theorem processExperiment_no_null {data : DataMap} {e : XElem}
    {m : DataMap}
    (h : ∀ p ∈ data, p.1 ≠ some "platform_instrument" →
      ∀ q ∈ p.2, q.1 ≠ none)
    (heq : processExperiment data e = .ok m) :
    ∀ p ∈ m, p.1 ≠ some "platform_instrument" → ∀ q ∈ p.2, q.1 ≠ none := by
  unfold processExperiment at heq
  cases hl : e.findSteps
      [pstep "DESIGN", pstep "LIBRARY_DESCRIPTOR", pstep "LIBRARY_LAYOUT"] with
  | none => rw [hl] at heq; cases heq
  | some layout_elem =>
    rw [hl] at heq
    simp only at heq
    cases hp : e.findSteps [pstep "PLATFORM"] with
    | none =>
      rw [hp] at heq
      simp only at heq
      cases heq
      exact addExperimentFields_no_null _ _ _ _ _ _ _ _ h
    | some platform_elem =>
      rw [hp] at heq
      simp only at heq
      by_cases hlen : platform_elem.children.length > 1
      · rw [if_pos hlen] at heq; cases heq
      · rw [if_neg hlen] at heq
        cases hc : platform_elem.children with
        | nil => rw [hc] at heq; cases heq
        | cons c cs =>
          rw [hc] at heq
          simp only at heq
          cases heq
          exact addExperimentFields_no_null _ _ _ _ _ _ _ _ h

/-- C3, counterexample: a `STUDY` element with no title (findtext gives
`None`) still contributes an occurrence to the title table — the null
value itself is recorded, so the study extractor does not skip missing
fields. -/
theorem C3_counterexample :
    XElem.findtextSteps demoBareStudyElem
      [pstep "DESCRIPTOR", pstep "STUDY_TITLE"] = none ∧
    dmLookup (parse_study_xml demoEmptyStudyDoc) (some "title") =
      some [(none, 1)] :=
  ⟨rfl, rfl⟩

/-- C3, amended: the sample extractor records no null occurrence for
any field (missing titles are skipped, species defaults to `"NA"`,
attribute values are always strings), and the experiment extractor
records none outside the `platform_instrument` table (whose entry is
the unguarded, possibly missing instrument model); the study extractor
however records every field unconditionally, using the null value when
the field is missing. -/
theorem C3_missing_fields :
    (∀ (doc : XElem) (m : DataMap), parse_sample_xml doc = .ok m →
      ∀ p ∈ m, ∀ q ∈ p.2, q.1 ≠ none) ∧
    (∀ (doc : XElem) (m : DataMap), parse_experiment_xml doc = .ok m →
      ∀ p ∈ m, p.1 ≠ some "platform_instrument" →
        ∀ q ∈ p.2, q.1 ≠ none) := by
  constructor
  · intro doc m heq
    refine foldlM_except_preserves
      (fun d => ∀ p ∈ d, ∀ q ∈ p.2, q.1 ≠ none) processSample
      (fun s a r hs hr => processSample_no_null hs hr)
      (collectTag "SAMPLE" doc) _ m ?_ heq
    simp
  · intro doc m heq
    refine foldlM_except_preserves
      (fun d => ∀ p ∈ d, p.1 ≠ some "platform_instrument" →
        ∀ q ∈ p.2, q.1 ≠ none) processExperiment
      (fun s a r hs hr => processExperiment_no_null hs hr)
      (collectTag "EXPERIMENT" doc) _ m ?_ heq
    simp

/-- C3 witness: the amended theorem applied to the scenario sample
document. -/
theorem C3_missing_fields_witness :
    parse_sample_xml demoSampleDoc = .ok demoSampleData ∧
    (∀ p ∈ demoSampleData, ∀ q ∈ p.2, q.1 ≠ none) :=
  ⟨rfl, C3_missing_fields.1 demoSampleDoc demoSampleData rfl⟩

/-- Bumping entries of a counter that holds no entry for the key is the
identity. -/
theorem counter_bump_eq_self {c : Counter} {k : Option String}
    (h : ∀ p ∈ c, fstIs k p = false) :
    c.map (fun p => if fstIs k p then (p.1, p.2 + 1) else p) = c := by
  induction c with
  | nil => rfl
  | cons p c ih =>
    rw [List.map_cons, if_neg (by simp [h p (List.mem_cons_self p c)]),
      ih (fun q hq => h q (List.mem_cons_of_mem p hq))]

/-- `counterAdd` does not change the key list when the key exists, and
appends the key otherwise. -/
theorem counterAdd_map_fst (c : Counter) (k : Option String) :
    (counterAdd c k).map Prod.fst =
      if c.any (fstIs k) then c.map Prod.fst
      else c.map Prod.fst ++ [k] := by
  unfold counterAdd
  by_cases h : c.any (fstIs k)
  · rw [if_pos h, if_pos h, List.map_map]
    exact List.map_congr_left (fun p _ => by
      by_cases hk : fstIs k p <;> simp [hk])
  · rw [if_neg h, if_neg h, List.map_append]
    rfl

/-- `counterAdd` preserves duplicate-freeness of the key list. -/
theorem counterAdd_keys_nodup {c : Counter} {k : Option String}
    (h : (c.map Prod.fst).Nodup) :
    ((counterAdd c k).map Prod.fst).Nodup := by
  rw [counterAdd_map_fst]
  by_cases hc : c.any (fstIs k)
  · rwa [if_pos hc]
  · rw [if_neg hc]
    refine h.append (List.nodup_singleton k) ?_
    intro x hx hk
    rw [List.mem_singleton.mp hk] at hx
    obtain ⟨p, hp, hpk⟩ := List.mem_map.mp hx
    have hc2 : ∀ q ∈ c, ¬ fstIs k q = true := by
      simpa [List.any_eq_true] using hc
    exact hc2 p hp (by simp [fstIs, hpk])

/-- On a counter with duplicate-free keys, one insertion raises the
total by exactly one. -/
theorem counterTotal_counterAdd {c : Counter} {k : Option String}
    (h : (c.map Prod.fst).Nodup) :
    counterTotal (counterAdd c k) = counterTotal c + 1 := by
  induction c with
  | nil => rfl
  | cons p c ih =>
    rw [List.map_cons, List.nodup_cons] at h
    unfold counterAdd
    by_cases hp : fstIs k p
    · have hk : p.1 = k := by simpa [fstIs] using hp
      have hrest : ∀ q ∈ c, fstIs k q = false := by
        intro q hq
        have : q.1 ≠ p.1 := fun hc =>
          h.1 (hc ▸ List.mem_map_of_mem Prod.fst hq)
        simp [fstIs, hk ▸ this]
      rw [if_pos (by simp [List.any_cons, hp])]
      rw [List.map_cons, if_pos hp, counter_bump_eq_self hrest]
      simp [counterTotal]
      omega
    · by_cases hc : c.any (fstIs k)
      · rw [if_pos (by simp [List.any_cons, hp, hc])]
        rw [List.map_cons, if_neg hp]
        have := ih h.2
        unfold counterAdd at this
        rw [if_pos hc] at this
        simp only [counterTotal, List.map_cons, List.sum_cons] at this ⊢
        omega
      · rw [if_neg (by simp [List.any_cons, hp, hc])]
        simp [counterTotal]
        omega

/-- The per-entry update of `dmAdd` never changes an entry's key. -/
theorem dmAdd_bump_fst (k v : Option String) (p : Option String × Counter) :
    (if fstIs k p then (p.1, counterAdd p.2 v) else p).1 = p.1 := by
  by_cases hk : fstIs k p <;> simp [hk]

/-- Inserting under one field leaves the lookup of any other field
unchanged. -/
theorem dmLookup_dmAdd_ne {d : DataMap} {k k' v : Option String}
    (h : k' ≠ k) :
    dmLookup (dmAdd d k v) k' = dmLookup d k' := by
  unfold dmAdd
  by_cases hd : d.any (fstIs k)
  · rw [if_pos hd]
    unfold dmLookup
    clear hd
    induction d with
    | nil => rfl
    | cons p d ih =>
      rw [List.map_cons, List.find?_cons, List.find?_cons]
      have hkey : fstIs k' (if fstIs k p then (p.1, counterAdd p.2 v)
          else p) = fstIs k' p := by
        by_cases hk : fstIs k p
        · rw [if_pos hk]; simp [fstIs]
        · rw [if_neg hk]
      cases hkp : fstIs k' p with
      | true =>
        have hfp : (if fstIs k p then (p.1, counterAdd p.2 v) else p) = p := by
          have hpk1 : p.1 = k' := by simpa [fstIs] using hkp
          rw [if_neg]
          simp [fstIs, hpk1, h]
        rw [hkey, hkp, hfp]
      | false =>
        rw [hkey, hkp]
        exact ih
  · rw [if_neg hd]
    unfold dmLookup
    rw [List.find?_append]
    have h1 : List.find? (fstIs k') [(k, counterAdd [] v)] = none := by
      simp [fstIs, Ne.symm h]
    rw [h1]
    cases List.find? (fstIs k') d <;> rfl

/-- Looking up the inserted field after an insertion gives the old
counter (empty when the field was absent) with the value added. -/
theorem dmLookup_dmAdd_same (d : DataMap) (k v : Option String) :
    dmLookup (dmAdd d k v) k =
      some (counterAdd ((dmLookup d k).getD []) v) := by
  unfold dmAdd
  by_cases hd : d.any (fstIs k)
  · rw [if_pos hd]
    unfold dmLookup
    induction d with
    | nil => simp at hd
    | cons p d ih =>
      rw [List.map_cons, List.find?_cons, List.find?_cons]
      by_cases hk : fstIs k p
      · have h1 : fstIs k (if fstIs k p then (p.1, counterAdd p.2 v)
            else p) = true := by
          rw [if_pos hk]
          simpa [fstIs] using hk
        rw [h1, hk]
        simp [if_pos hk]
      · have h1 : fstIs k (if fstIs k p then (p.1, counterAdd p.2 v)
            else p) = false := by
          rw [if_neg hk]
          simpa using hk
        have h2 : fstIs k p = false := by simpa using hk
        rw [h1, h2]
        have hd2 : d.any (fstIs k) = true := by
          rcases List.any_eq_true.mp hd with ⟨q, hq, hqk⟩
          rcases List.mem_cons.mp hq with rfl | hq2
          · exact absurd hqk (by simp [h2])
          · exact List.any_eq_true.mpr ⟨q, hq2, hqk⟩
        exact ih hd2
  · rw [if_neg hd]
    unfold dmLookup
    rw [List.find?_append]
    have h1 : List.find? (fstIs k) d = none :=
      List.find?_eq_none.mpr (by
        intro q hq
        have hc2 : ∀ q ∈ d, ¬ fstIs k q = true := by
          simpa [List.any_eq_true] using hd
        exact hc2 q hq)
    rw [h1]
    simp [fstIs]

/-- `dmAdd` keeps every field's counter duplicate-free. -/
theorem dmAdd_counters_nodup {d : DataMap} {k v : Option String}
    (h : ∀ p ∈ d, (p.2.map Prod.fst).Nodup) :
    ∀ p ∈ dmAdd d k v, (p.2.map Prod.fst).Nodup := by
  intro p hp
  unfold dmAdd at hp
  by_cases hd : d.any (fstIs k)
  · rw [if_pos hd] at hp
    obtain ⟨p0, hp0, hpe⟩ := List.mem_map.mp hp
    by_cases hk : fstIs k p0
    · rw [if_pos hk] at hpe
      subst hpe
      exact counterAdd_keys_nodup (h p0 hp0)
    · rw [if_neg hk] at hpe
      subst hpe
      exact h p0 hp0
  · rw [if_neg hd] at hp
    rcases List.mem_append.mp hp with h1 | h1
    · exact h p h1
    · rw [List.mem_singleton.mp h1]
      simp [counterAdd]

/-- A counter produced by a field lookup on a map with duplicate-free
counters is itself duplicate-free. -/
theorem dmLookup_counter_nodup {d : DataMap} {k : Option String}
    (hinv : ∀ p ∈ d, (p.2.map Prod.fst).Nodup) :
    (((dmLookup d k).getD []).map Prod.fst).Nodup := by
  unfold dmLookup
  cases hf : d.find? (fstIs k) with
  | none => simp
  | some p => simpa using hinv p (List.mem_of_find?_eq_some hf)

/-- Attribute insertions with keys other than `k` leave the lookup of
`k` unchanged. -/
theorem foldl_attr_dmLookup_ne (k : Option String)
    (attrs : List (Option String × String))
    (hk : ∀ a ∈ attrs, a.1 ≠ k) :
    ∀ d : DataMap,
      dmLookup (attrs.foldl (fun d kv => dmAdd d kv.1 (some kv.2)) d) k =
        dmLookup d k := by
  induction attrs with
  | nil => intro d; rfl
  | cons a attrs ih =>
    intro d
    rw [List.foldl_cons,
      ih (fun q hq => hk q (List.mem_cons_of_mem a hq))]
    exact dmLookup_dmAdd_ne
      (Ne.symm (hk a (List.mem_cons_self a attrs)))

/-- Attribute insertions keep every counter duplicate-free. -/
theorem foldl_attr_counters_nodup
    (attrs : List (Option String × String)) :
    ∀ d : DataMap, (∀ p ∈ d, (p.2.map Prod.fst).Nodup) →
      ∀ p ∈ attrs.foldl (fun d kv => dmAdd d kv.1 (some kv.2)) d,
        (p.2.map Prod.fst).Nodup := by
  induction attrs with
  | nil => intro d h; exact h
  | cons a attrs ih =>
    intro d h
    rw [List.foldl_cons]
    exact ih _ (dmAdd_counters_nodup h)

/-- Processing one sample element raises the species total by exactly
one, provided none of its attributes is itself named `species`, and it
keeps every counter duplicate-free. -/
theorem processSample_species_step {data : DataMap} {e : XElem}
    {m : DataMap}
    (hinv : ∀ p ∈ data, (p.2.map Prod.fst).Nodup)
    (hattr : ∀ attrs, sampleAttributes e = .ok attrs →
      ∀ a ∈ attrs, a.1 ≠ some "species")
    (heq : processSample data e = .ok m) :
    counterTotal ((dmLookup m (some "species")).getD []) =
      counterTotal ((dmLookup data (some "species")).getD []) + 1 ∧
    (∀ p ∈ m, (p.2.map Prod.fst).Nodup) := by
  unfold processSample at heq
  cases ha : sampleAttributes e with
  | error msg => rw [ha] at heq; cases heq
  | ok attrs =>
    rw [ha] at heq
    simp only at heq
    cases heq
    have hinv1 : ∀ p ∈ dmAdd data (some "species")
        (some (speciesOf e)), (p.2.map Prod.fst).Nodup :=
      dmAdd_counters_nodup hinv
    have hlook1 : dmLookup (dmAdd data (some "species")
        (some (speciesOf e))) (some "species") =
        some (counterAdd ((dmLookup data (some "species")).getD [])
          (some (speciesOf e))) :=
      dmLookup_dmAdd_same data (some "species") (some (speciesOf e))
    have htot1 : counterTotal ((dmLookup (dmAdd data (some "species")
        (some (speciesOf e))) (some "species")).getD []) =
        counterTotal ((dmLookup data (some "species")).getD []) + 1 := by
      rw [hlook1]
      exact counterTotal_counterAdd (dmLookup_counter_nodup hinv)
    cases ht : e.findtextSteps [pstep "TITLE"] with
    | none =>
      simp only [ht]
      constructor
      · rw [foldl_attr_dmLookup_ne (some "species") attrs
          (hattr attrs ha)]
        exact htot1
      · exact foldl_attr_counters_nodup attrs _ hinv1
    | some t =>
      simp only [ht]
      constructor
      · rw [foldl_attr_dmLookup_ne (some "species") attrs
          (hattr attrs ha)]
        rw [dmLookup_dmAdd_ne (by simp)]
        exact htot1
      · exact foldl_attr_counters_nodup attrs _
          (dmAdd_counters_nodup hinv1)

/-- Folding the sample processor over a list of elements adds exactly
one species occurrence per element. -/
theorem parse_sample_species_fold :
    ∀ (es : List XElem) (data m : DataMap),
      (∀ p ∈ data, (p.2.map Prod.fst).Nodup) →
      (∀ e ∈ es, ∀ attrs, sampleAttributes e = .ok attrs →
        ∀ a ∈ attrs, a.1 ≠ some "species") →
      es.foldlM processSample data = .ok m →
      counterTotal ((dmLookup m (some "species")).getD []) =
        counterTotal ((dmLookup data (some "species")).getD []) +
          es.length := by
  intro es
  induction es with
  | nil =>
    intro data m _ _ heq
    simp only [List.foldlM_nil] at heq
    cases heq
    simp
  | cons e es ih =>
    intro data m hinv hattr heq
    rw [List.foldlM_cons] at heq
    cases hs : processSample data e with
    | error msg => rw [hs] at heq; exact nomatch heq
    | ok d1 =>
      rw [hs] at heq
      obtain ⟨htot, hinv1⟩ := processSample_species_step hinv
        (hattr e (List.mem_cons_self e es)) hs
      have hrec := ih d1 m hinv1
        (fun e2 he2 => hattr e2 (List.mem_cons_of_mem e he2)) heq
      rw [hrec, htot, List.length_cons]
      omega

/-- C10, counterexample: a sample document with a single `SAMPLE`
element whose attribute tag is itself named `species` yields a species
table with total 2 — the attribute insertion lands in the species
counter, so the species total does not always equal the number of
`SAMPLE` elements. -/
theorem C10_counterexample :
    parse_sample_xml demoAttrSampleDoc =
      .ok [(some "title", []),
        (some "species", [(some "Homo sapiens", 1), (some "x", 1)])] ∧
    (collectTag "SAMPLE" demoAttrSampleDoc).length = 1 ∧
    counterTotal [(some "Homo sapiens", 1), (some "x", 1)] = 2 :=
  ⟨rfl, rfl, rfl⟩

/-- C10, amended: each `SAMPLE` element increments the species table by
exactly one through the species field (key `"NA"` when
`SCIENTIFIC_NAME` is missing or has empty text), so — provided no
sample attribute is itself named `species` — the species total equals
the number of `SAMPLE` elements parsed; an attribute named `species`
would add its value to the same table. -/
theorem C10_species_total :
    (∀ (doc : XElem) (m : DataMap), parse_sample_xml doc = .ok m →
      (∀ e ∈ collectTag "SAMPLE" doc, ∀ attrs,
        sampleAttributes e = .ok attrs →
          ∀ a ∈ attrs, a.1 ≠ some "species") →
      counterTotal ((dmLookup m (some "species")).getD []) =
        (collectTag "SAMPLE" doc).length) ∧
    (∀ e : XElem,
      (e.findtextSteps [pstep "SAMPLE_NAME", pstep "SCIENTIFIC_NAME"] =
          none ∨
        e.findtextSteps [pstep "SAMPLE_NAME", pstep "SCIENTIFIC_NAME"] =
          some "") →
      speciesOf e = "NA") := by
  constructor
  · intro doc m heq hattr
    have h := parse_sample_species_fold (collectTag "SAMPLE" doc)
      [(some "title", []), (some "species", [])] m (by simp) hattr heq
    simpa [dmLookup, fstIs, counterTotal] using h
  · intro e h
    unfold speciesOf pyOr
    rcases h with h | h <;> simp [h]

/-- C10 witness: the amended count theorem applied to the scenario
sample document (two samples, species total 2). -/
theorem C10_species_total_witness :
    parse_sample_xml demoSampleDoc = .ok demoSampleData ∧
    counterTotal ((dmLookup demoSampleData (some "species")).getD []) =
      (collectTag "SAMPLE" demoSampleDoc).length := by
  refine ⟨rfl, C10_species_total.1 demoSampleDoc demoSampleData rfl ?_⟩
  intro e he attrs hattrs a ha
  rw [show collectTag "SAMPLE" demoSampleDoc =
    [demoSampleElem "liver", demoSampleElem "skin"] from rfl] at he
  rcases List.mem_cons.mp he with rfl | he2
  · rw [show sampleAttributes (demoSampleElem "liver") =
      .ok [(some "tissue", "liver")] from rfl] at hattrs
    cases hattrs
    rw [List.mem_singleton.mp ha]
    simp
  · rcases List.mem_cons.mp he2 with rfl | he3
    · rw [show sampleAttributes (demoSampleElem "skin") =
        .ok [(some "tissue", "skin")] from rfl] at hattrs
      cases hattrs
      rw [List.mem_singleton.mp ha]
      simp
    · exact absurd he3 (List.not_mem_nil e)

/-- A left max-fold is bounded iff the seed and every element are. -/
theorem foldl_max_le_iff (l : List Nat) (a n : Nat) :
    l.foldl Nat.max a ≤ n ↔ a ≤ n ∧ ∀ x ∈ l, x ≤ n := by
  induction l generalizing a with
  | nil => simp
  | cons x l ih =>
    rw [List.foldl_cons, ih, Nat.max_le, List.forall_mem_cons]
    tauto

/-- Every element is bounded by the max-fold. -/
theorem le_foldl_max {l : List Nat} {x : Nat} (h : x ∈ l) (a : Nat) :
    x ≤ l.foldl Nat.max a :=
  ((foldl_max_le_iff l a (l.foldl Nat.max a)).mp le_rfl).2 x h

/-- C4: a non-identifier field whose table has `min_samples + 1`
distinct values, each with count `min_count - 1`, is omitted by the
aggregator; raising any single value's count to `min_count` makes the
field appear, rendered as pipe-joined `value(N=count)` pairs. -/
theorem C4_suppression_boundary :
    ∀ (attr : Option String) (ms mc : Nat),
      attr ∉ identifierFields → 0 < mc →
      (∀ c : Counter, c.length = ms + 1 → (∀ p ∈ c, p.2 = mc - 1) →
        aggregateField attr c ms mc = none) ∧
      (∀ (pre post : Counter) (k : Option String),
        (pre ++ post).length = ms →
        (∀ p ∈ pre ++ post, p.2 = mc - 1) →
        aggregateField attr (pre ++ (k, mc) :: post) ms mc =
          some (String.intercalate "|"
            (renderPieces attr (pre ++ (k, mc) :: post)))) := by
  intro attr ms mc hid hmc
  constructor
  · intro c hlen hall
    unfold aggregateField
    have hne : ¬ c.isEmpty = true := by
      simp only [List.isEmpty_iff]
      intro hc
      rw [hc] at hlen
      simp at hlen
    rw [if_neg hne, if_neg hid, if_pos]
    constructor
    · have hle : maxCounts c ≤ mc - 1 := by
        unfold maxCounts
        rw [foldl_max_le_iff]
        refine ⟨Nat.zero_le _, ?_⟩
        intro x hx
        obtain ⟨p, hp, hpe⟩ := List.mem_map.mp hx
        rw [← hpe, hall p hp]
      omega
    · omega
  · intro pre post k hlen hall
    unfold aggregateField
    have hne : ¬ (pre ++ (k, mc) :: post).isEmpty = true := by
      simp [List.isEmpty_iff]
    rw [if_neg hne, if_neg hid, if_neg]
    intro hcond
    have hmem : mc ∈ (pre ++ (k, mc) :: post).map
        (fun p : Option String × Nat => p.2) :=
      List.mem_map_of_mem (fun p : Option String × Nat => p.2)
        (show (k, mc) ∈ pre ++ (k, mc) :: post by simp)
    have := le_foldl_max hmem 0
    have hlt := hcond.1
    unfold maxCounts at hlt
    omega

/-- C4 witness: the boundary theorem at the default thresholds, with
eleven values of count 2 and then one value raised to 3. -/
theorem C4_suppression_boundary_witness :
    aggregateField (some "age") demoWideTable 10 3 = none ∧
    aggregateField (some "age") ([] ++ (some "v0", 3) :: demoWideRest)
        10 3 =
      some (String.intercalate "|"
        (renderPieces (some "age")
          ([] ++ (some "v0", 3) :: demoWideRest))) :=
  ⟨(C4_suppression_boundary (some "age") 10 3 (by decide) (by decide)).1
      demoWideTable (by decide) (by decide),
   (C4_suppression_boundary (some "age") 10 3 (by decide) (by decide)).2
      [] demoWideRest (some "v0") (by decide) (by decide)⟩

/-- C5: a non-empty table of one of the three identifier-like fields
(`SRP_ID`, `bioproject`, `title`) is always rendered as all distinct
values pipe-joined without counts, for any thresholds — never
suppressed by the high-cardinality rule. -/
theorem C5_identifier_never_suppressed :
    ∀ attr ∈ identifierFields, ∀ c : Counter, c ≠ [] →
      ∀ ms mc : Nat,
        aggregateField attr c ms mc =
          some (String.intercalate "|"
            (c.map (fun p => pyStr p.1))) := by
  intro attr hattr c hc ms mc
  unfold aggregateField
  rw [if_neg (by simpa [List.isEmpty_iff] using hc), if_pos hattr]
  unfold renderPieces
  rw [if_pos hattr]

/-- C5 witness: fifty distinct singleton titles still render as a
pipe-joined list. -/
theorem C5_identifier_witness :
    aggregateField (some "title") demoTitleTable 10 3 =
      some (String.intercalate "|"
        (demoTitleTable.map (fun p => pyStr p.1))) :=
  C5_identifier_never_suppressed (some "title") (by decide)
    demoTitleTable (by decide) 10 3

/-- C6: for a group holding both a study and a sample document (with
successful parses), the assembler emits no record when the species
table's total is at most 1, and none when neither `Homo sapiens` nor
`Mus musculus` is among its keys; a species table of exactly two
`Homo sapiens` occurrences passes both filters and a record is
emitted. -/
theorem C6_species_filters :
    ∀ (sra_id : Option String) (files : Files) (sdoc samdoc : XElem)
      (m : DataMap) (eo : Option DataMap),
      filesLookup files "study" = some sdoc →
      filesLookup files "sample" = some samdoc →
      parse_sample_xml samdoc = .ok m →
      expResult files = .ok eo →
      ((counterTotal ((dmLookup m (some "species")).getD []) ≤ 1 →
        processGroup sra_id files = .ok none) ∧
      (counterMem ((dmLookup m (some "species")).getD [])
          (some "Homo sapiens") = false →
        counterMem ((dmLookup m (some "species")).getD [])
          (some "Mus musculus") = false →
        processGroup sra_id files = .ok none) ∧
      (dmLookup m (some "species") = some [(some "Homo sapiens", 2)] →
        ∃ r, processGroup sra_id files = .ok (some r))) := by
  intro sra_id files sdoc samdoc m eo hstudy hsample hparse hexp
  unfold processGroup
  rw [hstudy, hsample]
  simp only
  rw [hparse]
  simp only
  rw [hexp]
  simp only
  refine ⟨?_, ?_, ?_⟩
  · intro h1
    rw [if_pos h1]
  · intro h1 h2
    by_cases ht : counterTotal ((dmLookup m (some "species")).getD []) ≤ 1
    · rw [if_pos ht]
    · rw [if_neg ht, if_pos (by simp [h1, h2])]
  · intro hsp
    rw [hsp]
    rw [if_neg (by decide), if_neg (by decide)]
    exact ⟨_, rfl⟩

/-- C6 witness: a group with a single `Homo sapiens` occurrence is
rejected by the sample-count filter. -/
theorem C6_species_filters_witness :
    counterTotal ((dmLookup demoSingleData (some "species")).getD [])
        ≤ 1 ∧
    processGroup (some "SRP000002") demoSingleFiles = .ok none :=
  ⟨by decide,
    (C6_species_filters (some "SRP000002") demoSingleFiles demoStudyDoc
      demoSingleSampleDoc demoSingleData none rfl rfl rfl rfl).1
      (by decide)⟩

/-- Processing an experiment element whose platform has more than one
child always raises, whatever the accumulated tables. -/
theorem processExperiment_error {e pe : XElem}
    (hp : e.findSteps [pstep "PLATFORM"] = some pe)
    (hlen : pe.children.length > 1) :
    ∀ data : DataMap, ∃ msg, processExperiment data e = .error msg := by
  intro data
  unfold processExperiment
  cases hl : e.findSteps
      [pstep "DESIGN", pstep "LIBRARY_DESCRIPTOR", pstep "LIBRARY_LAYOUT"] with
  | none => exact ⟨_, rfl⟩
  | some layout_elem =>
    simp only
    rw [hp]
    simp only
    rw [if_pos hlen]
    exact ⟨_, rfl⟩

/-- A monadic fold raises as soon as it reaches an element that always
raises. -/
theorem foldlM_error_of_mem {α σ : Type} (f : σ → α → Except String σ)
    {e : α} (he : ∀ s : σ, ∃ msg, f s e = .error msg) :
    ∀ l : List α, e ∈ l → ∀ init : σ,
      ∃ msg, l.foldlM f init = .error msg := by
  intro l
  induction l with
  | nil => intro h; exact absurd h (List.not_mem_nil e)
  | cons a l ih =>
    intro hmem init
    rw [List.foldlM_cons]
    rcases List.mem_cons.mp hmem with rfl | hmem2
    · obtain ⟨msg, hmsg⟩ := he init
      exact ⟨msg, by rw [hmsg]; rfl⟩
    · cases hs : f init a with
      | error msg => exact ⟨msg, rfl⟩
      | ok s =>
        obtain ⟨msg, hmsg⟩ := ih hmem2 s
        exact ⟨msg, hmsg⟩

/-- C7: parsing an experiment document raises whenever some
`EXPERIMENT` element's `PLATFORM` has more than one child — the parse
never returns tables that silently picked one technology flag. -/
theorem C7_platform_ambiguity :
    ∀ doc e : XElem, e ∈ collectTag "EXPERIMENT" doc →
      ∀ pe : XElem, e.findSteps [pstep "PLATFORM"] = some pe →
        pe.children.length > 1 →
        ∃ msg, parse_experiment_xml doc = .error msg := by
  intro doc e hmem pe hp hlen
  exact foldlM_error_of_mem processExperiment
    (processExperiment_error hp hlen) (collectTag "EXPERIMENT" doc)
    hmem _

/-- C7 witness: the two-flag platform document raises. -/
theorem C7_platform_ambiguity_witness :
    ∃ msg, parse_experiment_xml demoBadPlatformDoc = .error msg :=
  C7_platform_ambiguity demoBadPlatformDoc demoBadExpElem
    (by
      rw [show collectTag "EXPERIMENT" demoBadPlatformDoc =
        [demoBadExpElem] from rfl]
      exact List.mem_singleton.mpr rfl)
    demoBadPlatformElem rfl (by decide)

/-- A flush appends nothing when the bundle is empty and a non-empty
pair otherwise. -/
theorem flush_no_empty {acc : List (Option String × Files)}
    {files : Files} {last : Option String}
    (hacc : ∀ g ∈ acc, g.2 ≠ []) :
    ∀ g ∈ acc ++ (if files.isEmpty then [] else [(last, files)]),
      g.2 ≠ [] := by
  intro g hg
  rcases List.mem_append.mp hg with h | h
  · exact hacc g h
  · by_cases hf : files.isEmpty
    · rw [if_pos hf] at h
      exact absurd h (List.not_mem_nil g)
    · rw [if_neg hf] at h
      rw [List.mem_singleton.mp h]
      simpa [List.isEmpty_iff] using hf

/-- The walker loop never accumulates an empty bundle. -/
theorem iterSraGo_no_empty :
    ∀ (members : List TarMember) (files : Files) (last : Option String)
      (acc res : List (Option String × Files)),
      (∀ g ∈ acc, g.2 ≠ []) →
      iterSraGo members files last acc = .ok res →
      ∀ g ∈ res, g.2 ≠ [] := by
  intro members
  induction members with
  | nil =>
    intro files last acc res hacc heq g hg
    unfold iterSraGo at heq
    cases heq
    exact flush_no_empty hacc g hg
  | cons mhead rest ih =>
    intro files last acc res hacc heq g hg
    cases mhead with
    | dir name =>
      unfold iterSraGo at heq
      exact ih _ _ _ res (flush_no_empty hacc) heq g hg
    | file name content =>
      unfold iterSraGo at heq
      by_cases hxml : pyEndsWith name ".xml" = true
      · rw [if_pos hxml] at heq
        cases last with
        | none => simp at heq
        | some l =>
          simp only at heq
          by_cases hpar : pathParentName name = l
          · rw [if_pos (by simpa using hpar)] at heq
            cases hft : SRAFileType.extract name with
            | some ftype =>
              rw [hft] at heq
              exact ih _ _ _ res hacc heq g hg
            | none =>
              rw [hft] at heq
              exact ih _ _ _ res hacc heq g hg
          · rw [if_neg (by simpa using hpar)] at heq
            cases heq
      · rw [if_neg hxml] at heq
        exact ih _ _ _ res hacc heq g hg

/-- C8: the walker never yields a group with an empty bundle; a
directory immediately followed by another directory contributes
nothing (consecutive empty directories collapse), and at end of stream
a still-open non-empty bundle is flushed. -/
theorem C8_walker_empty_groups :
    (∀ (members : List TarMember)
      (res : List (Option String × Files)),
      iter_sra members = .ok res → ∀ g ∈ res, g.2 ≠ []) ∧
    (∀ (n1 n2 : String) (rest : List TarMember),
      iter_sra (.dir n1 :: .dir n2 :: rest) =
        iter_sra (.dir n2 :: rest)) ∧
    (∀ (files : Files) (last : Option String)
      (acc : List (Option String × Files)), files ≠ [] →
      iterSraGo [] files last acc = .ok (acc ++ [(last, files)])) := by
  refine ⟨?_, ?_, ?_⟩
  · intro members res heq
    exact iterSraGo_no_empty members [] none [] res (by simp) heq
  · intro n1 n2 rest
    rfl
  · intro files last acc hne
    unfold iterSraGo
    rw [if_neg (by simpa [List.isEmpty_iff] using hne)]

/-- C8 witness: the scenario archive yields exactly one non-empty
bundle; two consecutive directory entries behave like the second
alone; a final open bundle is flushed. -/
theorem C8_walker_empty_groups_witness :
    demoFilesBundle ≠ [] ∧
    iter_sra [TarMember.dir "A", TarMember.dir "B"] =
      iter_sra [TarMember.dir "B"] ∧
    iterSraGo [] demoFilesBundle (some "SRP000001") [] =
      .ok ([] ++ [(some "SRP000001", demoFilesBundle)]) :=
  ⟨C8_walker_empty_groups.1 demoMembers
      [(some "SRP000001", demoFilesBundle)] rfl
      (some "SRP000001", demoFilesBundle) (List.mem_singleton.mpr rfl),
   C8_walker_empty_groups.2.1 "A" "B" [],
   C8_walker_empty_groups.2.2 demoFilesBundle (some "SRP000001") []
     (by simp [demoFilesBundle])⟩

/-- Stored count of a key on a cons cell. -/
theorem counterCount_cons (p : Option String × Nat) (c : Counter)
    (k : Option String) :
    counterCount (p :: c) k =
      if fstIs k p then p.2 else counterCount c k := by
  unfold counterCount
  rw [List.find?_cons]
  cases h : fstIs k p <;> simp [h]

/-- Bumping entries of one key leaves other keys' counts unchanged. -/
theorem counterCount_bump_ne {c : Counter} {k k' : Option String}
    (h : k' ≠ k) :
    counterCount
        (c.map (fun p => if fstIs k p then (p.1, p.2 + 1) else p)) k' =
      counterCount c k' := by
  induction c with
  | nil => rfl
  | cons p c ih =>
    rw [List.map_cons, counterCount_cons, counterCount_cons]
    have hkey : fstIs k' (if fstIs k p then (p.1, p.2 + 1) else p) =
        fstIs k' p := by
      by_cases hk : fstIs k p
      · rw [if_pos hk]; simp [fstIs]
      · rw [if_neg hk]
    rw [hkey]
    cases hkp : fstIs k' p with
    | true =>
      have hkf : fstIs k p = false := by
        have h1 : p.1 = k' := by simpa [fstIs] using hkp
        simp [fstIs, h1, h]
      simp [hkf]
    | false =>
      simpa using ih

/-- Inserting a key raises its count by one. -/
theorem counterCount_counterAdd_same (c : Counter) (k : Option String) :
    counterCount (counterAdd c k) k = counterCount c k + 1 := by
  induction c with
  | nil => simp [counterAdd, counterCount, fstIs]
  | cons p c ih =>
    unfold counterAdd
    by_cases hp : fstIs k p
    · rw [if_pos (by simp [List.any_cons, hp]), List.map_cons,
        if_pos hp, counterCount_cons, counterCount_cons, if_pos hp,
        if_pos (show fstIs k (p.1, p.2 + 1) = true by
          simpa [fstIs] using hp)]
    · have hp2 : fstIs k p = false := by simpa using hp
      by_cases hc : c.any (fstIs k)
      · rw [if_pos (by simp [List.any_cons, hc]), List.map_cons,
          if_neg hp, counterCount_cons, counterCount_cons, if_neg hp,
          if_neg hp]
        have hrec := ih
        unfold counterAdd at hrec
        rw [if_pos hc] at hrec
        exact hrec
      · rw [if_neg (by simp [List.any_cons, hp2, hc]),
          List.cons_append, counterCount_cons, counterCount_cons,
          if_neg hp, if_neg hp]
        have hrec := ih
        unfold counterAdd at hrec
        rw [if_neg (by simp [hc])] at hrec
        exact hrec

/-- Inserting a key leaves other keys' counts unchanged. -/
theorem counterCount_counterAdd_ne (c : Counter) {k k' : Option String}
    (h : k' ≠ k) :
    counterCount (counterAdd c k) k' = counterCount c k' := by
  unfold counterAdd
  by_cases hc : c.any (fstIs k)
  · rw [if_pos hc]
    exact counterCount_bump_ne h
  · rw [if_neg hc]
    unfold counterCount
    rw [List.find?_append]
    have h1 : List.find? (fstIs k') [(k, 1)] = none := by
      simp [fstIs, Ne.symm h]
    rw [h1]
    cases List.find? (fstIs k') c <;> rfl

/-- A fold of insertions counts exactly the inserted occurrences. -/
theorem counterCount_foldl (l : List (Option String)) :
    ∀ (acc : Counter) (k : Option String),
      counterCount (l.foldl counterAdd acc) k =
        counterCount acc k + l.count k := by
  induction l with
  | nil => intro acc k; simp
  | cons x l ih =>
    intro acc k
    rw [List.foldl_cons, ih, List.count_cons]
    by_cases hx : x = k
    · subst hx
      rw [counterCount_counterAdd_same]
      have hkk : (x == x) = true := by simp
      rw [hkk]
      simp
      omega
    · rw [counterCount_counterAdd_ne acc (fun hc => hx hc.symm)]
      have : ((x == k) = true) = False := by
        simp [hx]
      simp [this]

/-- Bumping a key never changes whether some other key occurs. -/
theorem counterAdd_any_ne {c : Counter} {x y : Option String}
    (h : y ≠ x) :
    (counterAdd c x).any (fstIs y) = c.any (fstIs y) := by
  unfold counterAdd
  by_cases hx : c.any (fstIs x)
  · rw [if_pos hx]
    clear hx
    induction c with
    | nil => rfl
    | cons p c ih =>
      rw [List.map_cons, List.any_cons, List.any_cons, ih]
      congr 1
      by_cases hp : fstIs x p
      · rw [if_pos hp]
        simp [fstIs]
      · rw [if_neg hp]
  · rw [if_neg hx, List.any_append]
    have h1 : fstIs y (x, 1) = false := by
      simp [fstIs, Ne.symm h]
    simp [h1]

/-- Insertions into permuted counters give permuted counters. -/
theorem counterAdd_perm {c1 c2 : Counter} (h : c1.Perm c2)
    (k : Option String) :
    (counterAdd c1 k).Perm (counterAdd c2 k) := by
  have hany : c1.any (fstIs k) = c2.any (fstIs k) := by
    cases h1 : c1.any (fstIs k) with
    | true =>
      obtain ⟨p, hp, hpk⟩ := List.any_eq_true.mp h1
      exact (List.any_eq_true.mpr ⟨p, h.mem_iff.mp hp, hpk⟩).symm
    | false =>
      cases h2 : c2.any (fstIs k) with
      | true =>
        obtain ⟨p, hp, hpk⟩ := List.any_eq_true.mp h2
        exact absurd (List.any_eq_true.mpr ⟨p, h.mem_iff.mpr hp, hpk⟩)
          (by simp [h1])
      | false => rfl
  unfold counterAdd
  rw [hany]
  by_cases hc : c2.any (fstIs k)
  · rw [if_pos hc, if_pos hc]
    exact h.map _
  · rw [if_neg hc, if_neg hc]
    exact h.append_right _

/-- Folding insertions over permuted accumulators keeps them
permuted. -/
theorem foldl_counterAdd_perm_acc (l : List (Option String)) :
    ∀ {c1 c2 : Counter}, c1.Perm c2 →
      (l.foldl counterAdd c1).Perm (l.foldl counterAdd c2) := by
  induction l with
  | nil => intro c1 c2 h; exact h
  | cons x l ih =>
    intro c1 c2 h
    rw [List.foldl_cons, List.foldl_cons]
    exact ih (counterAdd_perm h x)

/-- `counterAdd` on a counter already holding the key is the entrywise
bump. -/
theorem counterAdd_eq_map {c : Counter} {k : Option String}
    (h : c.any (fstIs k) = true) :
    counterAdd c k =
      c.map (fun q => if fstIs k q then (q.1, q.2 + 1) else q) := by
  unfold counterAdd
  rw [if_pos h]

/-- `counterAdd` on a counter without the key appends a fresh entry. -/
theorem counterAdd_eq_append {c : Counter} {k : Option String}
    (h : c.any (fstIs k) = false) :
    counterAdd c k = c ++ [(k, 1)] := by
  unfold counterAdd
  rw [if_neg (by simp [h])]

/-- The per-entry bumps of two different keys commute. -/
theorem bump_comm {x y : Option String} (h : x ≠ y)
    (p : Option String × Nat) :
    (fun q : Option String × Nat =>
        if fstIs y q then (q.1, q.2 + 1) else q)
      ((fun q : Option String × Nat =>
        if fstIs x q then (q.1, q.2 + 1) else q) p) =
    (fun q : Option String × Nat =>
        if fstIs x q then (q.1, q.2 + 1) else q)
      ((fun q : Option String × Nat =>
        if fstIs y q then (q.1, q.2 + 1) else q) p) := by
  simp only
  by_cases hx : fstIs x p
  · have hpx : p.1 = x := by simpa [fstIs] using hx
    have hy : fstIs y p = false := by simp [fstIs, hpx, h]
    rw [if_pos hx, if_neg (show ¬ fstIs y p = true by simp [hy]),
      if_neg (show ¬ fstIs y (p.1, p.2 + 1) = true by
        simp [fstIs, hpx, h]),
      if_pos hx]
  · by_cases hy : fstIs y p
    · have hpy : p.1 = y := by simpa [fstIs] using hy
      rw [if_neg hx, if_pos hy,
        if_neg (show ¬ fstIs x (p.1, p.2 + 1) = true by
          simp [fstIs, hpy, Ne.symm h])]
    · simp [hx, hy]

/-- Two successive insertions of different keys commute up to
permutation. -/
theorem counterAdd_swap (c : Counter) (x y : Option String) :
    (counterAdd (counterAdd c x) y).Perm
      (counterAdd (counterAdd c y) x) := by
  by_cases hxy : x = y
  · subst hxy
    exact List.Perm.refl _
  · by_cases hx : c.any (fstIs x) <;> by_cases hy : c.any (fstIs y)
    · -- both keys present: the two entrywise bumps commute
      have a1 : (counterAdd c x).any (fstIs y) = true := by
        rw [counterAdd_any_ne (Ne.symm hxy)]
        exact hy
      have a2 : (counterAdd c y).any (fstIs x) = true := by
        rw [counterAdd_any_ne hxy]
        exact hx
      rw [counterAdd_eq_map a1, counterAdd_eq_map a2,
        counterAdd_eq_map hx, counterAdd_eq_map hy]
      have hcomm : (c.map (fun q =>
          if fstIs x q then (q.1, q.2 + 1) else q)).map
            (fun q => if fstIs y q then (q.1, q.2 + 1) else q) =
          (c.map (fun q =>
            if fstIs y q then (q.1, q.2 + 1) else q)).map
              (fun q => if fstIs x q then (q.1, q.2 + 1) else q) := by
        rw [List.map_map, List.map_map]
        exact List.map_congr_left (fun p _ => bump_comm hxy p)
      rw [hcomm]
    · -- x present, y absent
      have a1 : (counterAdd c x).any (fstIs y) = false := by
        rw [counterAdd_any_ne (Ne.symm hxy)]
        simpa using hy
      have a2 : (counterAdd c y).any (fstIs x) = true := by
        rw [counterAdd_any_ne hxy]
        exact hx
      rw [counterAdd_eq_append a1, counterAdd_eq_map a2,
        counterAdd_eq_map hx, counterAdd_eq_append (by simpa using hy),
        List.map_append]
      have hsingle : [((y : Option String), (1 : Nat))].map
          (fun q : Option String × Nat =>
            if fstIs x q then (q.1, q.2 + 1) else q) = [(y, 1)] := by
        simp [fstIs, Ne.symm hxy]
      rw [hsingle]
    · -- x absent, y present
      have a1 : (counterAdd c x).any (fstIs y) = true := by
        rw [counterAdd_any_ne (Ne.symm hxy)]
        exact hy
      have a2 : (counterAdd c y).any (fstIs x) = false := by
        rw [counterAdd_any_ne hxy]
        simpa using hx
      rw [counterAdd_eq_map a1, counterAdd_eq_append a2,
        counterAdd_eq_append (by simpa using hx), counterAdd_eq_map hy,
        List.map_append]
      have hsingle : [((x : Option String), (1 : Nat))].map
          (fun q : Option String × Nat =>
            if fstIs y q then (q.1, q.2 + 1) else q) = [(x, 1)] := by
        simp [fstIs, hxy]
      rw [hsingle]
    · -- both keys absent: fresh entries are appended in either order
      have a1 : (counterAdd c x).any (fstIs y) = false := by
        rw [counterAdd_any_ne (Ne.symm hxy)]
        simpa using hy
      have a2 : (counterAdd c y).any (fstIs x) = false := by
        rw [counterAdd_any_ne hxy]
        simpa using hx
      rw [counterAdd_eq_append a1, counterAdd_eq_append a2,
        counterAdd_eq_append (by simpa using hx),
        counterAdd_eq_append (by simpa using hy),
        List.append_assoc, List.append_assoc]
      exact List.Perm.append_left c (List.Perm.swap (y, 1) (x, 1) [])

/-- Tables built from permuted occurrence lists are permutations of
each other. -/
theorem buildCounter_perm {l1 l2 : List (Option String)}
    (h : l1.Perm l2) :
    (buildCounter l1).Perm (buildCounter l2) := by
  unfold buildCounter
  have main : ∀ acc : Counter,
      (l1.foldl counterAdd acc).Perm (l2.foldl counterAdd acc) := by
    induction h with
    | nil => intro acc; exact List.Perm.refl _
    | cons x hrest ih =>
      intro acc
      rw [List.foldl_cons, List.foldl_cons]
      exact ih _
    | swap x y l =>
      intro acc
      rw [List.foldl_cons, List.foldl_cons, List.foldl_cons,
        List.foldl_cons]
      exact foldl_counterAdd_perm_acc l (counterAdd_swap acc y x)
    | trans h1 h2 ih1 ih2 =>
      intro acc
      exact (ih1 acc).trans (ih2 acc)
  exact main []

/-- The aggregator's keep-or-omit decision depends only on emptiness,
maximum count and cardinality. -/
theorem aggregateField_isSome_eq {c1 c2 : Counter}
    (attr : Option String) (ms mc : Nat)
    (hlen : c1.length = c2.length)
    (hmax : maxCounts c1 = maxCounts c2) :
    (aggregateField attr c1 ms mc).isSome =
      (aggregateField attr c2 ms mc).isSome := by
  have hE : c1.isEmpty = c2.isEmpty := by
    cases c1 <;> cases c2 <;> simp_all
  unfold aggregateField
  by_cases h1 : c1.isEmpty = true
  · rw [if_pos h1, if_pos (hE ▸ h1)]
  · rw [if_neg h1, if_neg (fun hc => h1 (hE ▸ hc))]
    by_cases h2 : attr ∈ identifierFields
    · rw [if_pos h2, if_pos h2]
      rfl
    · rw [if_neg h2, if_neg h2]
      by_cases h3 : maxCounts c1 < mc ∧ c1.length > ms
      · rw [if_pos h3, if_pos (by rw [← hmax, ← hlen]; exact h3)]
      · rw [if_neg h3, if_neg (by rw [← hmax, ← hlen]; exact h3)]
        rfl

/-- C9: tables built by inserting the same multiset of occurrences in
two different orders have identical counts per value and identical
cardinality, the aggregator reaches the same keep-or-omit decision on
them, and their rendered pieces are permutations of each other (the
summaries differ at most in pipe-joined order). -/
theorem C9_order_invariance :
    ∀ l1 l2 : List (Option String), l1.Perm l2 →
      (∀ k, counterCount (buildCounter l1) k =
        counterCount (buildCounter l2) k) ∧
      (buildCounter l1).length = (buildCounter l2).length ∧
      (∀ (attr : Option String) (ms mc : Nat),
        (aggregateField attr (buildCounter l1) ms mc).isSome =
          (aggregateField attr (buildCounter l2) ms mc).isSome ∧
        (renderPieces attr (buildCounter l1)).Perm
          (renderPieces attr (buildCounter l2))) := by
  intro l1 l2 hperm
  have hp := buildCounter_perm hperm
  have hmax : maxCounts (buildCounter l1) =
      maxCounts (buildCounter l2) := by
    unfold maxCounts
    exact List.Perm.foldl_eq (f := Nat.max) (hp.map (fun p => p.2)) 0
  refine ⟨?_, hp.length_eq, ?_⟩
  · intro k
    unfold buildCounter
    rw [counterCount_foldl, counterCount_foldl]
    exact congrArg (fun t => counterCount [] k + t)
      (hperm.countP_eq (fun x => x == k))
  · intro attr ms mc
    refine ⟨aggregateField_isSome_eq attr ms mc hp.length_eq hmax, ?_⟩
    unfold renderPieces
    by_cases h : attr ∈ identifierFields
    · rw [if_pos h, if_pos h]
      exact hp.map _
    · rw [if_neg h, if_neg h]
      exact hp.map _

/-- C9 witness: two concrete insertion orders of the same multiset. -/
theorem C9_order_invariance_witness :
    demoOccurrencesA.Perm demoOccurrencesB ∧
    ((∀ k, counterCount (buildCounter demoOccurrencesA) k =
        counterCount (buildCounter demoOccurrencesB) k) ∧
      (buildCounter demoOccurrencesA).length =
        (buildCounter demoOccurrencesB).length ∧
      (∀ (attr : Option String) (ms mc : Nat),
        (aggregateField attr (buildCounter demoOccurrencesA)
            ms mc).isSome =
          (aggregateField attr (buildCounter demoOccurrencesB)
            ms mc).isSome ∧
        (renderPieces attr (buildCounter demoOccurrencesA)).Perm
          (renderPieces attr (buildCounter demoOccurrencesB)))) :=
  ⟨by decide,
    C9_order_invariance demoOccurrencesA demoOccurrencesB (by decide)⟩

end SRA
